import Mathlib

/-!
Verification development for the SEO tooling repository.

The repository ships Streamlit applications.  The snapshot under `src/`
contains `app.py`, the e-commerce product-card generator (batch processing,
checkpointing, ZIP image ingestion); its functions are embedded below under
"Product-card application".  The URL-migration matching engine (language
tagging, chunked similarity matching, field fusion and best/second ranking)
belongs to the URL-mapper application of the repository, which is not part of
the snapshot; those components are modelled from the design document and each
such definition is marked `Modelled from the spec:`.

Similarity scores, floats in `[0,1]` in the applications, are modelled in
thousandths as `Nat` (the default threshold 0.3 becomes 300).
-/

-- ## Generic character / list utilities

/-- ASCII lowercasing of one character, as Python `str.lower` acts on the
ASCII range. -/
def lowerChar (c : Char) : Char :=
  if 65 ≤ c.toNat ∧ c.toNat ≤ 90 then Char.ofNat (c.toNat + 32) else c

/-- Lowercase every character of a list. -/
def lowerChars (l : List Char) : List Char := l.map lowerChar

/-- Lowercase a string (Python `str.lower`). -/
def lowerStr (s : String) : String := String.mk (lowerChars s.data)

/-- Remove the characters satisfying `p` from both ends of a list
(Python `str.strip(chars)`). -/
def stripBy (p : Char → Bool) (l : List Char) : List Char :=
  ((l.dropWhile p).reverse.dropWhile p).reverse

/-- Strip leading and trailing whitespace (Python `str.strip()`). -/
def stripChars (l : List Char) : List Char := stripBy Char.isWhitespace l

/-- Split a character list on a separator character, keeping empty pieces,
as Python `str.split(sep)` does. -/
def splitOnChar (sep : Char) (l : List Char) : List (List Char) :=
  l.foldr
    (fun c acc =>
      match acc with
      | [] => [[c]]
      | s :: rest => if c = sep then [] :: s :: rest else (c :: s) :: rest)
    [[]]

/-- Join pieces with a separator character (Python `sep.join(parts)`). -/
def joinWithChar (sep : Char) : List (List Char) → List Char
  | [] => []
  | [p] => p
  | p :: ps => p ++ sep :: joinWithChar sep ps

/-- Longest prefix of a list that contains neither a dash nor an
underscore. -/
def beforeSep (l : List Char) : List Char :=
  l.takeWhile (fun c => !(c == Char.ofNat 45) && !(c == Char.ofNat 95))

/-- Characters after the first occurrence of the pattern, `none` when the
pattern does not occur. -/
def dropAfterPat (pat : List Char) : List Char → Option (List Char)
  | [] => none
  | c :: rest =>
    if pat.isPrefixOf (c :: rest) then some ((c :: rest).drop pat.length)
    else dropAfterPat pat rest

/-- Fuel-indexed worker for `chunkList`; the fuel is the list length, so the
recursion is structural and computable by the kernel. -/
def chunkAux {α : Type} : Nat → List α → Nat → List (List α)
  | _, [], _ => []
  | 0, _ :: _, _ => []
  | fuel + 1, a :: l, k => (a :: l.take (k - 1)) :: chunkAux fuel (l.drop (k - 1)) k

/-- Cut a list into consecutive chunks of size `k` (the last chunk may be
shorter). -/
def chunkList {α : Type} (l : List α) (k : Nat) : List (List α) :=
  chunkAux l.length l k

/-- Worker for `dedupBy`, carrying the set of keys already seen. -/
def dedupByAux {α β : Type} [DecidableEq β] (key : α → β) :
    List β → List α → List α
  | _, [] => []
  | seen, a :: l =>
    if key a ∈ seen then dedupByAux key seen l
    else a :: dedupByAux key (key a :: seen) l

/-- Deduplicate a list by a key, first occurrence wins (the behaviour of
`drop_duplicates` on the key column). -/
def dedupBy {α β : Type} [DecidableEq β] (key : α → β) (l : List α) : List α :=
  dedupByAux key [] l

/-- Insert into a sorted list, keeping stability with respect to `le`. -/
def insertSorted {α : Type} (le : α → α → Bool) (a : α) : List α → List α
  | [] => [a]
  | b :: l => if le a b then a :: b :: l else b :: insertSorted le a l

/-- Stable insertion sort by the boolean relation `le`. -/
def insertionSort {α : Type} (le : α → α → Bool) : List α → List α
  | [] => []
  | a :: l => insertSorted le a (insertionSort le l)

/-- Parse a decimal natural number; any non-digit makes the parse fail. -/
def parseNatChars (l : List Char) : Option Nat :=
  if l ≠ [] ∧ l.all Char.isDigit then
    some (l.foldl (fun acc c => acc * 10 + (c.toNat - 48)) 0)
  else none

/-- Length of the longest common prefix of two lists. -/
def commonPrefixLen : List Char → List Char → Nat
  | a :: as, b :: bs => if a = b then 1 + commonPrefixLen as bs else 0
  | _, _ => 0

-- ## URL-migration engine: language tagging (modelled from the spec)

/-- Modelled from the spec: the fixed ISO 639-1 subset gating pattern-based
language detection in the URL-mapper application (absent from the
snapshot). -/
def knownLanguages : List String :=
  ["en", "it", "fr", "de", "es", "pt", "nl", "ru", "pl", "ja", "zh", "sv",
   "da", "fi", "cs", "el", "tr", "hu", "ro", "bg", "sk", "uk", "ar", "ko"]

/-- Modelled from the spec: language-code normalization of the URL-mapper
application (absent from the snapshot): lowercase, strip whitespace, collapse
`xx-YY` / `xx_YY` locale forms to the language part, accept any 2-letter
result verbatim, rewrite any other length to `"unknown"`. -/
def normalizeLang (x : String) : String :=
  let t := stripChars (beforeSep (stripChars (lowerChars x.data)))
  if t.length = 2 then String.mk t else "unknown"

/-- Portion of a URL after the scheme separator, or the whole text when
there is no scheme. -/
def afterScheme (u : String) : List Char :=
  (dropAfterPat ("://".data) u.data).getD u.data

/-- Host portion of a URL: everything between the scheme and the first
slash or question mark. -/
def hostOf (u : String) : List Char :=
  (afterScheme u).takeWhile (fun c => !(c == '/') && !(c == '?'))

/-- Path portion of a URL (host and query removed). -/
def pathOf (u : String) : List Char :=
  (((afterScheme u).drop (hostOf u).length).takeWhile (fun c => !(c == '?')))

/-- Query-string portion of a URL (after the question mark). -/
def queryOf (u : String) : List Char :=
  (((afterScheme u).drop (hostOf u).length).dropWhile (fun c => !(c == '?'))).drop 1

/-- Modelled from the spec: detection pattern (1) of the URL-mapper
application: a known 2-letter subdomain prefix followed by a dot. -/
def subdomainLang (u : String) : Option String :=
  match splitOnChar '.' (hostOf u) with
  | p :: _ :: _ =>
    if p.length = 2 ∧ String.mk p ∈ knownLanguages then some (String.mk p)
    else none
  | _ => none

/-- Modelled from the spec: detection pattern (2) of the URL-mapper
application: a path beginning with `/xx/` for a known code `xx`. -/
def pathPrefixLang (u : String) : Option String :=
  match splitOnChar '/' (pathOf u) with
  | first :: seg :: rest =>
    if first = [] ∧ rest ≠ [] ∧ seg.length = 2 ∧ String.mk seg ∈ knownLanguages
    then some (String.mk seg)
    else none
  | _ => none

/-- Scan path segments for a country-qualified `xx-yy` segment that is
followed by a further slash; only the language part is returned. -/
def localeSegScan : List (List Char) → Option String
  | [] => none
  | [_] => none
  | s :: rest =>
    if s.length = 5 ∧ (s.drop 2).take 1 = [Char.ofNat 45] ∧
        String.mk (s.take 2) ∈ knownLanguages
    then some (String.mk (s.take 2))
    else localeSegScan rest

/-- Modelled from the spec: detection pattern (3) of the URL-mapper
application: a path containing `/xx-yy/`, using only the language part. -/
def localeLang (u : String) : Option String :=
  localeSegScan (splitOnChar '/' (pathOf u))

/-- Scan query parameters for a first `lang=xx` parameter with a known
2-letter value. -/
def queryScan : List (List Char) → Option String
  | [] => none
  | p :: rest =>
    if ("lang=".data).isPrefixOf p then
      let v := p.drop 5
      if v.length = 2 ∧ String.mk v ∈ knownLanguages then some (String.mk v)
      else none
    else queryScan rest

/-- Modelled from the spec: detection pattern (4) of the URL-mapper
application: a query parameter `lang=xx`. -/
def queryLang (u : String) : Option String :=
  queryScan (splitOnChar '&' (queryOf u))

/-- Modelled from the spec: per-URL language detection of the URL-mapper
application (absent from the snapshot), first matching pattern wins:
subdomain, `/xx/` path prefix, `/xx-yy/` locale segment, `lang=` query
parameter; otherwise the configured default, else `"unknown"`. -/
def detectLanguage (u : String) (defaultLang : Option String) : String :=
  match subdomainLang u with
  | some l => l
  | none =>
    match pathPrefixLang u with
    | some l => l
    | none =>
      match localeLang u with
      | some l => l
      | none =>
        match queryLang u with
        | some l => l
        | none => defaultLang.getD "unknown"

/-- Modelled from the spec: one row of the LanguageTagger of the URL-mapper
application: a normalized pre-existing language column value is used as-is
unless missing, empty or `"unknown"`, in which case detection runs on the
address. -/
def tagLanguage (langCol : Option String) (address : String)
    (defaultLang : Option String) : String :=
  let n := normalizeLang (langCol.getD "")
  if n ≠ "unknown" then n else detectLanguage address defaultLang

-- ## URL-migration engine: chunked similarity matching (modelled from the spec)

/-- Modelled from the spec: one fuzzy-match result of the URL-mapper
application; `similarity` is in thousandths of the `[0,1]` score. -/
structure FieldMatch where
  source : String
  target : String
  similarity : Nat
deriving DecidableEq

/-- Invocations the chunked matcher performs: one call per source chunk,
each paired with the full target list. -/
def simMatchCalls (src tgt : List String) (k : Nat) :
    List (List String × List String) :=
  (chunkList src k).map (fun c => (c, tgt))

/-- Modelled from the spec: the SimilarityMatcher integration layer of the
URL-mapper application (absent from the snapshot): the source list is
processed in chunks of size `k`, each chunk is matched by the black-box
matcher `f` against the full target list, and results under the minimum
similarity `θ` are discarded. -/
def simMatch (f : List String → List String → List FieldMatch)
    (src tgt : List String) (k θ : Nat) : List FieldMatch :=
  ((chunkList src k).map (fun c => (f c tgt).filter (fun m => θ ≤ m.similarity))).flatten

-- ## URL-migration engine: rows, fusion and ranking (modelled from the spec)

/-- Modelled from the spec: a crawl-export row as uploaded (status code still
textual; a missing or non-numeric value will be coerced to 0). -/
structure RawRow where
  address : String
  statusCode : Option String
  title : Option String
  h1 : Option String
  extras : List (String × Option String)
  langCol : Option String
deriving DecidableEq

/-- Modelled from the spec: a crawl row after status parsing and language
assignment. -/
structure URLRow where
  address : String
  status : Nat
  title : Option String
  h1 : Option String
  extras : List (String × Option String)
  langCol : Option String
  language : String
deriving DecidableEq

/-- Modelled from the spec: status-code coercion of the URL-mapper
application: invalid or missing status codes become 0. -/
def parseStatus (s : Option String) : Nat :=
  match s with
  | none => 0
  | some v => (parseNatChars v.data).getD 0

/-- Parse an uploaded row (language not yet assigned). -/
def parseRow (r : RawRow) : URLRow :=
  ⟨r.address, parseStatus r.statusCode, r.title, r.h1, r.extras, r.langCol, ""⟩

/-- Modelled from the spec: a matchable field of a row: address, title, H1
or a user-selected extra column. -/
inductive MatchField
  | address
  | title
  | h1
  | extra (name : String)
deriving DecidableEq

/-- Modelled from the spec: value of a field on a row, with missing
title/H1/extra values back-filled by the row's own address. -/
def fieldVal (r : URLRow) : MatchField → String
  | .address => r.address
  | .title => r.title.getD r.address
  | .h1 => r.h1.getD r.address
  | .extra n => ((r.extras.lookup n).getD none).getD r.address

/-- Modelled from the spec: operator configuration of the URL-mapper
application. -/
structure MapperConfig where
  extraFields : List String
  useLanguage : Bool
  liveDefaultLang : Option String
  stagingDefaultLang : Option String
  chunkSize : Nat
  minSimilarity : Nat
deriving DecidableEq

/-- Assign a language to every row of a set (LanguageTagger pass). -/
def tagRows (rows : List URLRow) (defaultLang : Option String) : List URLRow :=
  rows.map (fun r => { r with language := tagLanguage r.langCol r.address defaultLang })

/-- Partition key of a row: its language when partitioning is enabled,
otherwise a single shared key. -/
def partitionKey (cfg : MapperConfig) (r : URLRow) : String :=
  if cfg.useLanguage then r.language else ""

/-- Union of the partition keys observed on both sets, first occurrence
order. -/
def partitionKeys (cfg : MapperConfig) (live staging : List URLRow) : List String :=
  dedupBy id ((live ++ staging).map (partitionKey cfg))

/-- Field values of the rows of one partition. -/
def partitionVals (cfg : MapperConfig) (rows : List URLRow) (p : String)
    (fl : MatchField) : List String :=
  (rows.filter (fun r => partitionKey cfg r = p)).map (fun r => fieldVal r fl)

/-- Modelled from the spec: the FieldMatchFuser of the URL-mapper
application (absent from the snapshot): for one field, run the chunked
matcher per language partition and concatenate the surviving matches into a
single table. -/
def fieldTable (f : List String → List String → List FieldMatch)
    (cfg : MapperConfig) (live staging : List URLRow) (fl : MatchField) :
    List FieldMatch :=
  ((partitionKeys cfg live staging).map
    (fun p => simMatch f (partitionVals cfg live p fl) (partitionVals cfg staging p fl)
      cfg.chunkSize cfg.minSimilarity)).flatten

/-- Modelled from the spec: resolve a matched target text to a staging
address, first staging occurrence of the text wins. -/
def lookupAddr (staging : List URLRow) (fl : MatchField) (t : String) : String :=
  ((staging.find? (fun r => fieldVal r fl = t)).map (fun r => r.address)).getD ""

/-- Modelled from the spec: the per-field join columns a live row receives:
similarity, matched staging URL, source text and destination text; all zero
or empty when the row has no surviving match on the field. -/
structure FieldCand where
  label : String
  url : String
  sim : Nat
  srcText : String
  dstText : String
deriving DecidableEq

instance : Inhabited FieldCand := ⟨⟨"", "", 0, "", ""⟩⟩

/-- Join one live row to one field's match table (first match on the row's
own field value), resolving the target text to a staging address. -/
def candFor (table : List FieldMatch) (staging : List URLRow) (fl : MatchField)
    (label : String) (r : URLRow) : FieldCand :=
  match table.find? (fun m => m.source = fieldVal r fl) with
  | some m => ⟨label, lookupAddr staging fl m.target, m.similarity, fieldVal r fl, m.target⟩
  | none => ⟨label, "", 0, fieldVal r fl, ""⟩

/-- All field-join columns of one live row: URL, Page Title, H1 Heading and
the configured extra fields, in that iteration order. -/
def candsOf (f : List String → List String → List FieldMatch)
    (cfg : MapperConfig) (live staging : List URLRow) (r : URLRow) :
    List FieldCand :=
  candFor (fieldTable f cfg live staging .address) staging .address "URL" r ::
  candFor (fieldTable f cfg live staging .title) staging .title "Page Title" r ::
  candFor (fieldTable f cfg live staging .h1) staging .h1 "H1 Heading" r ::
  cfg.extraFields.map (fun n => candFor (fieldTable f cfg live staging (.extra n)) staging (.extra n) n r)

/-- First-encountered maximum-similarity field of a row (ties broken by
column iteration order). -/
def bestOfList (cands : List FieldCand) : FieldCand :=
  match cands with
  | [] => default
  | c :: cs => cs.foldl (fun a b => if a.sim < b.sim then b else a) c

/-- First-encountered minimum-similarity field of a row. -/
def lowOfList (cands : List FieldCand) : FieldCand :=
  match cands with
  | [] => default
  | c :: cs => cs.foldl (fun a b => if b.sim < a.sim then b else a) c

/-- Modelled from the spec: the second-match elimination rule of the
URL-mapper application: remove the best field name and the lowest field name
from the set of field names; the remaining candidates. -/
def secondCands (cands : List FieldCand) (bestLabel lowLabel : String) :
    List FieldCand :=
  cands.filter (fun c => !(c.label == bestLabel) && !(c.label == lowLabel))

/-- Second match of a row: the first candidate left by the elimination rule
(falling back to the best candidate when nothing remains). -/
def secondOf (cands : List FieldCand) (best low : FieldCand) : FieldCand :=
  (secondCands cands best.label low.label).head?.getD best

/-- Modelled from the spec: one output row of the Migration Map: best and
second match with their field labels, similarities and texts, plus the
double-match flag. -/
structure RankedMatch where
  sourceUrl : String
  statusCode : Nat
  language : String
  bestMatchUrl : String
  bestMatchOn : String
  bestSimilarity : Nat
  bestSourceText : String
  bestDestText : String
  secondMatchUrl : String
  secondMatchOn : String
  secondSimilarity : Nat
  secondSourceText : String
  secondDestText : String
  doubleMatched : Bool
deriving DecidableEq

/-- A live row together with its per-field join columns, the input of the
ranking pass. -/
structure JoinedRow where
  row : URLRow
  cands : List FieldCand
deriving DecidableEq

/-- Modelled from the spec: best/second selection and labelling for one
joined row (steps 9 to 12 of the MigrationMapBuilder). -/
def mkRanked (jr : JoinedRow) : RankedMatch :=
  let best := bestOfList jr.cands
  let low := lowOfList jr.cands
  let second := secondOf jr.cands best low
  ⟨jr.row.address, jr.row.status, jr.row.language,
   best.url, best.label, best.sim, best.srcText, best.dstText,
   second.url, second.label, second.sim, second.srcText, second.dstText,
   decide (lowerStr best.url = lowerStr second.url)⟩

/-- Modelled from the spec: non-redirectable live statuses: 300 to 308 and
500 to 599. -/
def nonRedirectableStatus (s : Nat) : Prop :=
  (300 ≤ s ∧ s ≤ 308) ∨ (500 ≤ s ∧ s ≤ 599)

instance (s : Nat) : Decidable (nonRedirectableStatus s) := by
  unfold nonRedirectableStatus
  infer_instance

/-- Modelled from the spec: statuses eligible for matching: 2xx and 4xx
only. -/
def eligibleStatus (s : Nat) : Prop :=
  (200 ≤ s ∧ s ≤ 299) ∨ (400 ≤ s ∧ s ≤ 499)

instance (s : Nat) : Decidable (eligibleStatus s) := by
  unfold eligibleStatus
  infer_instance

/-- Live rows after status parsing and address deduplication (step 1 of the
MigrationMapBuilder). -/
def liveDeduped (live : List RawRow) : List URLRow :=
  dedupBy (fun r => r.address) (live.map parseRow)

/-- Live rows routed to the non-redirectable report (status 3xx/5xx). -/
def nonRedirectableOf (live : List RawRow) : List URLRow :=
  (liveDeduped live).filter (fun r => decide (nonRedirectableStatus r.status))

/-- Live rows eligible for matching (status 2xx or 4xx). -/
def eligibleOf (live : List RawRow) : List URLRow :=
  (liveDeduped live).filter (fun r => decide (eligibleStatus r.status))

/-- Sort order of the final report: best similarity descending, then
double-matched descending. -/
def rankedBefore (a b : RankedMatch) : Bool :=
  (b.bestSimilarity < a.bestSimilarity) ||
    (b.bestSimilarity == a.bestSimilarity &&
      ((if b.doubleMatched then 1 else 0) ≤ (if a.doubleMatched then (1 : Nat) else 0)))

/-- Modelled from the spec: the joined, re-deduplicated live rows with their
per-field match columns (steps 5 to 8 of the MigrationMapBuilder). -/
def joinedRows (f : List String → List String → List FieldMatch)
    (cfg : MapperConfig) (live staging : List URLRow) : List JoinedRow :=
  dedupBy (fun jr => jr.row.address)
    (live.map (fun r => ⟨r, candsOf f cfg live staging r⟩))

/-- Modelled from the spec: the MigrationMapBuilder of the URL-mapper
application (absent from the snapshot): parse and deduplicate both sets,
split live rows into the non-redirectable report and the eligible rows, tag
languages, fuse per-field matches, rank best/second per row, deduplicate by
source URL and sort. -/
def buildMigrationMap (f : List String → List String → List FieldMatch)
    (live staging : List RawRow) (cfg : MapperConfig) :
    List RankedMatch × List URLRow :=
  let nrs := nonRedirectableOf live
  let eligible := eligibleOf live
  let staging1 := dedupBy (fun r => r.address) (staging.map parseRow)
  let live2 := if cfg.useLanguage then tagRows eligible cfg.liveDefaultLang else eligible
  let staging2 := if cfg.useLanguage then tagRows staging1 cfg.stagingDefaultLang else staging1
  let ranked := dedupBy (fun r => r.sourceUrl) ((joinedRows f cfg live2 staging2).map mkRanked)
  (insertionSort rankedBefore ranked, nrs)

-- ## A concrete black-box matcher for end-to-end runs

/-- A simple concrete similarity: common-prefix length scaled by the longer
length, in thousandths (stands in for the external TF-IDF black box). -/
def toyScore (s t : String) : Nat :=
  (1000 * commonPrefixLen s.data t.data) / (max s.length t.length)

/-- Best-scoring target for one source text under `toyScore`. -/
def toyBest (s : String) : List String → FieldMatch
  | [] => ⟨s, "", 0⟩
  | t :: ts =>
    ts.foldl
      (fun m t2 => if m.similarity < toyScore s t2 then ⟨s, t2, toyScore s t2⟩ else m)
      ⟨s, t, toyScore s t⟩

/-- A concrete matcher satisfying the black-box contract: one best target
per source. -/
def toyMatcher (src tgt : List String) : List FieldMatch :=
  src.map (fun s => toyBest s tgt)

/-- The live set of the end-to-end scenario in the design document. -/
def exampleLive : List RawRow :=
  [⟨"/it/shoes", some "200", some "Scarpe Rosse", none, [], none⟩]

/-- The staging set of the end-to-end scenario in the design document. -/
def exampleStaging : List RawRow :=
  [⟨"/it/scarpe-rosse", some "200", some "Scarpe Rosse", none, [], none⟩]

/-- Default operator configuration: no extra fields, language partitioning
on, chunk size 5000, minimum similarity 0.3. -/
def exampleConfig : MapperConfig :=
  ⟨[], true, none, none, 5000, 300⟩

/-- Four field-join columns with pairwise distinct labels and pairwise
distinct similarities, as a configuration with one extra matching column
produces. -/
def fourFieldCands : List FieldCand :=
  [⟨"URL", "/a", 900, "u", "a"⟩,
   ⟨"Page Title", "/b", 700, "t", "b"⟩,
   ⟨"H1 Heading", "/c", 500, "h", "c"⟩,
   ⟨"Product Code", "/d", 200, "p", "d"⟩]

-- ## Product-card application (embedded from src/app.py)

/-- Normalization applied by `app.py` to product codes:
`str(x).strip().strip(apostrophe).strip(quote)`. -/
def pyStripNorm (l : List Char) : List Char :=
  stripBy (fun c => c == Char.ofNat 34)
    (stripBy (fun c => c == Char.ofNat 39) (stripChars l))

/-- Checkpoint payload built by `save_checkpoint` in `app.py`: session id,
timestamp, accumulated results, and `current_index` set to the number of
results. -/
structure Checkpoint where
  sessionId : String
  timestamp : Nat
  results : List (List (String × String))
  currentIndex : Nat
deriving DecidableEq

/-- Embedded from `save_checkpoint` (app.py lines 925-933): the checkpoint
stores the session id, a timestamp, the result list and
`current_index = len(results)`. -/
def save_checkpoint (results : List (List (String × String)))
    (sessionId : String) (now : Nat) : Checkpoint :=
  ⟨sessionId, now, results, results.length⟩

/-- Product-code assignment of `process_batch` (app.py lines 947-953): the
normalized value of the code column when one is mapped, otherwise the
synthetic code `PROD_<index+1>`. -/
def codeOf (codeColumn : Option String) (row : List (String × String))
    (index : Nat) : String :=
  match codeColumn with
  | some col => String.mk (pyStripNorm ((row.lookup col).getD "").data)
  | none => "PROD_" ++ toString (index + 1)

/-- Embedded from `process_batch` (app.py lines 961-980): the generated
fields copied into a result row, one per selected field, in the fixed
if-chain order of the source. -/
def selectedPairs (fields : List String) (content : List (String × String)) :
    List (String × String) :=
  (if "Titolo Prodotto" ∈ fields then [("titolo", (content.lookup "titolo").getD "")] else [])
  ++ (if "Short Description" ∈ fields then [("short_description", (content.lookup "short_description").getD "")] else [])
  ++ (if "Description" ∈ fields then [("description", (content.lookup "description").getD "")] else [])
  ++ (if "Bullet Points" ∈ fields then [("bullet_points", (content.lookup "bullet_points").getD "")] else [])
  ++ (if "Meta Title" ∈ fields then [("meta_title", (content.lookup "meta_title").getD "")] else [])
  ++ (if "Meta Description" ∈ fields then [("meta_description", (content.lookup "meta_description").getD "")] else [])
  ++ (if "URL" ∈ fields then [("url_slug", (content.lookup "url_slug").getD "")] else [])

/-- Result-row keys the if-chain of `process_batch` produces for a selected
field list (stated separately from the row construction, for comparison). -/
def selectedKeys (fields : List String) : List String :=
  (if "Titolo Prodotto" ∈ fields then ["titolo"] else [])
  ++ (if "Short Description" ∈ fields then ["short_description"] else [])
  ++ (if "Description" ∈ fields then ["description"] else [])
  ++ (if "Bullet Points" ∈ fields then ["bullet_points"] else [])
  ++ (if "Meta Title" ∈ fields then ["meta_title"] else [])
  ++ (if "Meta Description" ∈ fields then ["meta_description"] else [])
  ++ (if "URL" ∈ fields then ["url_slug"] else [])

/-- Worker for `process_batch`, carrying the running absolute row index. -/
def processBatchAux (gen : List (String × String) → Option (List (String × String)))
    (codeColumn : Option String) (fields : List String) :
    Nat → List (List (String × String)) → List (List (String × String))
  | _, [] => []
  | index, row :: rest =>
    let code := codeOf codeColumn row index
    let res :=
      match gen row with
      | some content => ("codice_prodotto", code) :: selectedPairs fields content
      | none => [("codice_prodotto", code), ("errore", "ERRORE - NON GENERATO")]
    res :: processBatchAux gen codeColumn fields (index + 1) rest

/-- Embedded from `process_batch` (app.py lines 939-991): one result row per
input row; `generate_product_content` is the black-box parameter `gen`. -/
def process_batch (gen : List (String × String) → Option (List (String × String)))
    (batch : List (List (String × String))) (codeColumn : Option String)
    (startIndex : Nat) (fields : List String) : List (List (String × String)) :=
  processBatchAux gen codeColumn fields startIndex batch

/-- Processing state of the main loop of `app.py`: accumulated results,
current index into the CSV, and the last saved checkpoint. -/
structure ProcState where
  results : List (List (String × String))
  currentIndex : Nat
  checkpoint : Option Checkpoint
deriving DecidableEq

/-- Embedded from `main` (app.py lines 1559-1589): one batch step: slice the
next batch, run `process_batch`, extend the results, advance the index and
save a checkpoint of the accumulated results. A state whose index has
reached the end is left unchanged. -/
def procStep (gen : List (String × String) → Option (List (String × String)))
    (csvData : List (List (String × String))) (batchSize : Nat)
    (codeColumn : Option String) (fields : List String)
    (sessionId : String) (now : Nat) (st : ProcState) : ProcState :=
  if st.currentIndex < csvData.length then
    let batchData := (csvData.drop st.currentIndex).take batchSize
    let batchResults := process_batch gen batchData codeColumn st.currentIndex fields
    let newResults := st.results ++ batchResults
    ⟨newResults, min (st.currentIndex + batchSize) csvData.length,
     some (save_checkpoint newResults sessionId now)⟩
  else st

/-- The processing loop started from the idle state, run for `n` batch
steps. -/
def runBatches (gen : List (String × String) → Option (List (String × String)))
    (csvData : List (List (String × String))) (batchSize : Nat)
    (codeColumn : Option String) (fields : List String)
    (sessionId : String) (now : Nat) : Nat → ProcState
  | 0 => ⟨[], 0, none⟩
  | n + 1 =>
    procStep gen csvData batchSize codeColumn fields sessionId now
      (runBatches gen csvData batchSize codeColumn fields sessionId now n)

-- ## ZIP image ingestion (embedded from src/app.py)

/-- One entry of the uploaded ZIP: its name and either its bytes or a read
error (`zip_ref.read` can raise). -/
structure ZipEntry where
  name : String
  data : Except String (List Nat)

/-- Does the pattern occur contiguously anywhere in the list (Python
`in` on strings)? -/
def containsSeq (pat : List Char) : List Char → Bool
  | [] => pat.isPrefixOf []
  | c :: rest => pat.isPrefixOf (c :: rest) || containsSeq pat rest

/-- Embedded from `load_images_from_zip` (app.py lines 93-99): folders and
hidden/system files that are skipped. -/
def skipFile (nm : List Char) : Bool :=
  (("/".data).isSuffixOf nm) ||
  (("__MACOSX".data).isPrefixOf nm) ||
  (containsSeq ("/__MACOSX".data) nm) ||
  ((".".data).isPrefixOf nm) ||
  (containsSeq ("/.DS_Store".data) nm) ||
  ((".DS_Store".data).isSuffixOf nm) ||
  (containsSeq ("._".data) nm)

/-- Last path component of a ZIP entry name. -/
def baseName (nm : List Char) : List Char :=
  (nm.reverse.takeWhile (fun c => !(c == '/'))).reverse

/-- Stem and suffix of a file name, following `pathlib.Path`: the suffix
starts at the last dot, and a dot that starts the name yields no suffix. -/
def splitExt (bn : List Char) : List Char × List Char :=
  let rext := bn.reverse.takeWhile (fun c => !(c == '.'))
  if rext.length = bn.length then (bn, [])
  else
    let rstem := bn.reverse.drop (rext.length + 1)
    if rstem = [] then (bn, [])
    else (rstem.reverse, '.' :: rext.reverse)

/-- Embedded from `load_images_from_zip` (app.py line 79): the supported
image extensions. -/
def supportedFormats : List (List Char) :=
  [".jpg".data, ".jpeg".data, ".png".data, ".webp".data, ".gif".data, ".bmp".data]

/-- Embedded from `load_images_from_zip` (app.py lines 121-124): descriptive
suffix keywords stripped from product codes. -/
def suffixKeywords : List String :=
  ["front", "back", "side", "top", "bottom", "fronte", "retro", "lato",
   "sopra", "sotto", "1", "2", "3", "4", "5"]

/-- Embedded from `load_images_from_zip` (app.py lines 116-125): drop a
trailing `_<digits>` or `_<keyword>` part from a product code. -/
def dropImageSuffix (code : List Char) : List Char :=
  if code.contains (Char.ofNat 95) then
    let parts := splitOnChar (Char.ofNat 95) code
    match parts.getLast? with
    | some lastPart =>
      if (lastPart ≠ [] ∧ lastPart.all Char.isDigit) ∨
          String.mk (lowerChars lastPart) ∈ suffixKeywords then
        joinWithChar (Char.ofNat 95) parts.dropLast
      else code
    | none => code
  else code

/-- Full product-code extraction from an image file name (app.py lines
108-128): stem, strip, optional suffix drop, strip again. -/
def imageProductCode (stem : List Char) : String :=
  String.mk (pyStripNorm (dropImageSuffix (pyStripNorm stem)))

/-- Append an image to the entry of a product code, keeping insertion order
(the behaviour of the Python dict in `load_images_from_zip`). -/
def addImage (dict : List (String × List (List Nat))) (code : String)
    (img : List Nat) : List (String × List (List Nat)) :=
  match dict with
  | [] => [(code, [img])]
  | (c, imgs) :: rest =>
    if c = code then (c, imgs ++ [img]) :: rest
    else (c, imgs) :: addImage rest code img

/-- Embedded from the loop of `load_images_from_zip` (app.py lines 89-148):
skip folders/hidden files, keep supported image extensions, validate each
image (the PIL `verify` black box is the `validImage` oracle; an invalid
image is skipped), and propagate a read error to the outer handler. -/
def loadLoop (validImage : List Nat → Bool) :
    List ZipEntry → List (String × List (List Nat)) →
    Except String (List (String × List (List Nat)))
  | [], dict => .ok dict
  | e :: rest, dict =>
    let nm := e.name.data
    if skipFile nm then loadLoop validImage rest dict
    else
      let se := splitExt (baseName nm)
      if lowerChars se.2 ∈ supportedFormats then
        match e.data with
        | .error msg => .error msg
        | .ok bytes =>
          if validImage bytes then
            loadLoop validImage rest (addImage dict (imageProductCode se.1) bytes)
          else loadLoop validImage rest dict
      else loadLoop validImage rest dict

/-- Embedded from `load_images_from_zip` (app.py lines 76-202): the whole
body runs under one `try`; any exception while reading the ZIP makes the
function return the empty mapping. -/
def load_images_from_zip (validImage : List Nat → Bool)
    (zipOpen : Except String (List ZipEntry)) :
    List (String × List (List Nat)) :=
  match zipOpen with
  | .error _ => []
  | .ok files =>
    match loadLoop validImage files [] with
    | .error _ => []
    | .ok dict => dict

/-- Maximum of the per-field similarities of a candidate list (0 when
empty). -/
def maxSim (cands : List FieldCand) : Nat :=
  cands.foldr (fun c m => max c.sim m) 0

-- ## Utility lemmas

theorem lowerChar_idem (c : Char) : lowerChar (lowerChar c) = lowerChar c := by
  unfold lowerChar
  by_cases h : 65 ≤ c.toNat ∧ c.toNat ≤ 90
  · rw [if_pos h]
    obtain ⟨h1, h2⟩ := h
    have hv : (Char.ofNat (c.toNat + 32)).toNat = c.toNat + 32 := by
      generalize c.toNat = n at h1 h2
      interval_cases n <;> decide
    have hout : ¬(65 ≤ (Char.ofNat (c.toNat + 32)).toNat ∧
        (Char.ofNat (c.toNat + 32)).toNat ≤ 90) := by
      rw [hv]; omega
    rw [if_neg hout]
  · rw [if_neg h, if_neg h]

theorem mem_of_mem_stripBy {p : Char → Bool} {l : List Char} {a : Char}
    (h : a ∈ stripBy p l) : a ∈ l := by
  unfold stripBy at h
  rw [List.mem_reverse] at h
  have h2 : a ∈ (l.dropWhile p).reverse := (List.dropWhile_suffix p).sublist.mem h
  rw [List.mem_reverse] at h2
  exact (List.dropWhile_suffix p).sublist.mem h2

theorem head?_dropWhile {p : Char → Bool} {l : List Char} {c : Char}
    (h : (l.dropWhile p).head? = some c) : p c = false := by
  induction l with
  | nil => simp at h
  | cons a l ih =>
      by_cases hp : p a
      · rw [List.dropWhile_cons_of_pos hp] at h
        exact ih h
      · rw [List.dropWhile_cons_of_neg hp] at h
        simp at h
        rw [← h]
        simpa using hp

theorem dropWhile_eq_self_of {p : Char → Bool} {l : List Char}
    (h : ∀ c, l.head? = some c → p c = false) : l.dropWhile p = l := by
  cases l with
  | nil => rfl
  | cons a l => exact List.dropWhile_cons_of_neg (by simp [h a rfl])

theorem getLast?_stripBy {p : Char → Bool} {l : List Char} {c : Char}
    (h : (stripBy p l).getLast? = some c) : p c = false := by
  unfold stripBy at h
  rw [List.getLast?_reverse] at h
  exact head?_dropWhile h

theorem head?_stripBy {p : Char → Bool} {l : List Char} {c : Char}
    (h : (stripBy p l).head? = some c) : p c = false := by
  unfold stripBy at h
  rw [List.head?_reverse] at h
  obtain ⟨s, hs⟩ := List.dropWhile_suffix (l := (l.dropWhile p).reverse) p
  by_cases hw : ((l.dropWhile p).reverse.dropWhile p) = []
  · rw [hw] at h
    simp at h
  · have heq : ((l.dropWhile p).reverse.dropWhile p).getLast? =
        ((l.dropWhile p).reverse).getLast? := by
      conv_rhs => rw [← hs]
      exact (List.getLast?_append_of_ne_nil s hw).symm
    rw [heq, List.getLast?_reverse] at h
    exact head?_dropWhile h

theorem stripBy_fixed {p : Char → Bool} {l : List Char}
    (hh : ∀ c, l.head? = some c → p c = false)
    (hl : ∀ c, l.getLast? = some c → p c = false) : stripBy p l = l := by
  unfold stripBy
  rw [dropWhile_eq_self_of hh]
  rw [dropWhile_eq_self_of (fun c hc => hl c (by rwa [List.head?_reverse] at hc))]
  exact List.reverse_reverse l

theorem map_eq_self_of_fixed {f : Char → Char} {l : List Char}
    (h : ∀ c ∈ l, f c = c) : l.map f = l := by
  induction l with
  | nil => rfl
  | cons a l ih => simp_all

theorem lowerChar_fixed_of_mem {l : List Char} {c : Char}
    (h : c ∈ lowerChars l) : lowerChar c = c := by
  unfold lowerChars at h
  obtain ⟨d, _, rfl⟩ := List.mem_map.mp h
  exact lowerChar_idem d

theorem normalizeLang_mk_fixed (t : List Char) (h2 : t.length = 2)
    (hlow : lowerChars t = t) (hsep : beforeSep t = t)
    (hstrip : stripChars t = t) :
    normalizeLang (String.mk t) = String.mk t := by
  have hdef : normalizeLang (String.mk t) =
      (if (stripChars (beforeSep (stripChars (lowerChars t)))).length = 2
       then String.mk (stripChars (beforeSep (stripChars (lowerChars t))))
       else "unknown") := rfl
  rw [hdef, hlow, hstrip, hsep, hstrip, if_pos h2]

/-- C4. Language-code normalization is idempotent: normalizing twice equals
normalizing once, for every input string. -/
theorem normalizeLang_idempotent (x : String) :
    normalizeLang (normalizeLang x) = normalizeLang x := by
  have hdef : normalizeLang x =
      (if (stripChars (beforeSep (stripChars (lowerChars x.data)))).length = 2
       then String.mk (stripChars (beforeSep (stripChars (lowerChars x.data))))
       else "unknown") := rfl
  by_cases h2 : (stripChars (beforeSep (stripChars (lowerChars x.data)))).length = 2
  · rw [hdef, if_pos h2]
    have hmem : ∀ c ∈ stripChars (beforeSep (stripChars (lowerChars x.data))),
        c ∈ lowerChars x.data := by
      intro c hc
      have hc2 := mem_of_mem_stripBy hc
      have hc3 := (List.takeWhile_sublist _).mem hc2
      exact mem_of_mem_stripBy hc3
    have hsepmem : ∀ c ∈ stripChars (beforeSep (stripChars (lowerChars x.data))),
        (!(c == Char.ofNat 45) && !(c == Char.ofNat 95)) = true := by
      intro c hc
      have hc2 := mem_of_mem_stripBy hc
      unfold beforeSep at hc2
      simpa using List.mem_takeWhile_imp hc2
    apply normalizeLang_mk_fixed _ h2
    · exact map_eq_self_of_fixed (fun c hc => lowerChar_fixed_of_mem (hmem c hc))
    · exact List.takeWhile_eq_self_iff.mpr hsepmem
    · exact stripBy_fixed (fun c hc => head?_stripBy hc)
        (fun c hc => getLast?_stripBy hc)
  · rw [hdef, if_neg h2]
    decide

/-- C3. Language detection applies its patterns in fixed priority order with
first match winning: subdomain, then `/xx/` path prefix, then `/xx-yy/`
locale segment, then `lang=` query parameter; when none matches, the default
language if provided, else `"unknown"`; and on
`https://it.example.com/en/page?lang=fr` the subdomain wins, giving
`"it"`. -/
theorem detectLanguage_priority :
    (∀ u d l, subdomainLang u = some l → detectLanguage u d = l) ∧
    (∀ u d l, subdomainLang u = none → pathPrefixLang u = some l →
      detectLanguage u d = l) ∧
    (∀ u d l, subdomainLang u = none → pathPrefixLang u = none →
      localeLang u = some l → detectLanguage u d = l) ∧
    (∀ u d l, subdomainLang u = none → pathPrefixLang u = none →
      localeLang u = none → queryLang u = some l → detectLanguage u d = l) ∧
    (∀ u d, subdomainLang u = none → pathPrefixLang u = none →
      localeLang u = none → queryLang u = none →
      detectLanguage u d = d.getD "unknown") ∧
    detectLanguage "https://it.example.com/en/page?lang=fr" none = "it" := by
  refine ⟨?_, ?_, ?_, ?_, ?_, by decide⟩
  · intro u d l h
    unfold detectLanguage
    rw [h]
  · intro u d l h1 h2
    unfold detectLanguage
    rw [h1, h2]
  · intro u d l h1 h2 h3
    unfold detectLanguage
    rw [h1, h2, h3]
  · intro u d l h1 h2 h3 h4
    unfold detectLanguage
    rw [h1, h2, h3, h4]
  · intro u d h1 h2 h3 h4
    unfold detectLanguage
    rw [h1, h2, h3, h4]

/-- Witness for C3: on the documented example URL the subdomain pattern
matches and the theorem yields `"it"`. -/
theorem detectLanguage_priority_witness :
    subdomainLang "https://it.example.com/en/page?lang=fr" = some "it" ∧
    detectLanguage "https://it.example.com/en/page?lang=fr" none = "it" :=
  ⟨by decide,
   detectLanguage_priority.1 "https://it.example.com/en/page?lang=fr" none "it"
     (by decide)⟩

theorem chunkAux_flatten {α : Type} (fuel : Nat) (l : List α) (k : Nat)
    (h : l.length ≤ fuel) : (chunkAux fuel l k).flatten = l := by
  induction fuel generalizing l with
  | zero =>
      cases l with
      | nil => rfl
      | cons a l => simp at h
  | succ fuel ih =>
      cases l with
      | nil => rfl
      | cons a l =>
          have hlen : (l.drop (k - 1)).length ≤ fuel := by
            rw [List.length_drop]
            simp at h
            omega
          rw [show chunkAux (fuel + 1) (a :: l) k =
                (a :: l.take (k - 1)) :: chunkAux fuel (l.drop (k - 1)) k from rfl,
              List.flatten_cons, ih _ hlen, List.cons_append,
              List.take_append_drop]

theorem chunkList_flatten {α : Type} (l : List α) (k : Nat) :
    (chunkList l k).flatten = l :=
  chunkAux_flatten l.length l k le_rfl

/-- C5. Chunked matching: the source chunks exactly cover the source list,
every matcher invocation receives the full unchunked target list, and every
stored match survived the minimum-similarity filter. -/
theorem simMatch_chunking_invariants
    (f : List String → List String → List FieldMatch)
    (src tgt : List String) (k θ : Nat) :
    (chunkList src k).flatten = src ∧
    (∀ call ∈ simMatchCalls src tgt k, call.2 = tgt) ∧
    (∀ m ∈ simMatch f src tgt k θ, θ ≤ m.similarity) := by
  refine ⟨chunkList_flatten src k, ?_, ?_⟩
  · intro call hc
    obtain ⟨c, _, rfl⟩ := List.mem_map.mp hc
    rfl
  · intro m hm
    unfold simMatch at hm
    rw [List.mem_flatten] at hm
    obtain ⟨ms, hms, hm2⟩ := hm
    obtain ⟨c, _, rfl⟩ := List.mem_map.mp hms
    simpa using (List.mem_filter.mp hm2).2

/-- Witness for C5: a concrete run in which a call carries the whole target
list and a stored match is above the 0.3 threshold. -/
theorem simMatch_chunking_invariants_witness :
    ((["ab"], ["ab"]) : List String × List String).2 = ["ab"] ∧
    300 ≤ (FieldMatch.mk "ab" "ab" 1000).similarity :=
  ⟨(simMatch_chunking_invariants toyMatcher ["ab"] ["ab"] 2 300).2.1
      (["ab"], ["ab"]) (by decide),
   (simMatch_chunking_invariants toyMatcher ["ab"] ["ab"] 2 300).2.2
      ⟨"ab", "ab", 1000⟩ (by decide)⟩

theorem mem_insertSorted {α : Type} (le : α → α → Bool) (a x : α) :
    ∀ (l : List α), x ∈ insertSorted le a l ↔ x = a ∨ x ∈ l := by
  intro l
  induction l with
  | nil => simp [insertSorted]
  | cons b l ih =>
      unfold insertSorted
      by_cases hc : le a b
      · simp [hc]
      · simp only [hc, if_neg, Bool.false_eq_true, ite_false, List.mem_cons, ih]
        tauto

theorem mem_insertionSort {α : Type} (le : α → α → Bool) (x : α) :
    ∀ (l : List α), x ∈ insertionSort le l ↔ x ∈ l := by
  intro l
  induction l with
  | nil => simp [insertionSort]
  | cons a l ih =>
      unfold insertionSort
      rw [mem_insertSorted]
      simp [ih]

theorem mem_of_mem_dedupByAux {α β : Type} [DecidableEq β] (key : α → β) :
    ∀ (seen : List β) (l : List α) (a : α),
      a ∈ dedupByAux key seen l → a ∈ l := by
  intro seen l
  induction l generalizing seen with
  | nil => intro a h; simp [dedupByAux] at h
  | cons x l ih =>
      intro a h
      unfold dedupByAux at h
      by_cases hx : key x ∈ seen
      · rw [if_pos hx] at h
        exact List.mem_cons_of_mem x (ih seen a h)
      · rw [if_neg hx] at h
        rcases List.mem_cons.mp h with h1 | h1
        · rw [h1]; exact List.mem_cons_self x l
        · exact List.mem_cons_of_mem x (ih _ a h1)

theorem key_not_seen_of_mem_dedupByAux {α β : Type} [DecidableEq β] (key : α → β) :
    ∀ (seen : List β) (l : List α) (a : α),
      a ∈ dedupByAux key seen l → key a ∉ seen := by
  intro seen l
  induction l generalizing seen with
  | nil => intro a h; simp [dedupByAux] at h
  | cons x l ih =>
      intro a h
      unfold dedupByAux at h
      by_cases hx : key x ∈ seen
      · rw [if_pos hx] at h
        exact ih seen a h
      · rw [if_neg hx] at h
        rcases List.mem_cons.mp h with h1 | h1
        · rw [h1]; exact hx
        · intro hs
          exact ih _ a h1 (List.mem_cons_of_mem _ hs)

theorem dedupByAux_key_inj {α β : Type} [DecidableEq β] (key : α → β) :
    ∀ (seen : List β) (l : List α) (a b : α),
      a ∈ dedupByAux key seen l → b ∈ dedupByAux key seen l →
      key a = key b → a = b := by
  intro seen l
  induction l generalizing seen with
  | nil => intro a b h; simp [dedupByAux] at h
  | cons x l ih =>
      intro a b ha hb hk
      unfold dedupByAux at ha hb
      by_cases hx : key x ∈ seen
      · rw [if_pos hx] at ha hb
        exact ih seen a b ha hb hk
      · rw [if_neg hx] at ha hb
        rcases List.mem_cons.mp ha with ha1 | ha1 <;>
          rcases List.mem_cons.mp hb with hb1 | hb1
        · rw [ha1, hb1]
        · exfalso
          apply key_not_seen_of_mem_dedupByAux key _ _ _ hb1
          rw [← hk, ha1]
          exact List.mem_cons_self _ _
        · exfalso
          apply key_not_seen_of_mem_dedupByAux key _ _ _ ha1
          rw [hk, hb1]
          exact List.mem_cons_self _ _
        · exact ih _ a b ha1 hb1 hk

theorem mem_of_mem_dedupBy {α β : Type} [DecidableEq β] (key : α → β)
    (l : List α) (a : α) (h : a ∈ dedupBy key l) : a ∈ l :=
  mem_of_mem_dedupByAux key [] l a h

theorem dedupBy_key_inj {α β : Type} [DecidableEq β] (key : α → β)
    (l : List α) (a b : α) (ha : a ∈ dedupBy key l) (hb : b ∈ dedupBy key l)
    (hk : key a = key b) : a = b :=
  dedupByAux_key_inj key [] l a b ha hb hk

theorem foldl_pick_mem {P : FieldCand → FieldCand → Prop} [DecidableRel P] :
    ∀ (cs : List FieldCand) (c : FieldCand),
      cs.foldl (fun a b => if P a b then b else a) c ∈ c :: cs := by
  intro cs
  induction cs with
  | nil => intro c; simp
  | cons b cs ih =>
      intro c
      simp only [List.foldl]
      rcases List.mem_cons.mp (ih (if P c b then b else c)) with h1 | h1
      · rw [h1]
        by_cases hp : P c b
        · rw [if_pos hp]; simp
        · rw [if_neg hp]; simp
      · exact List.mem_cons_of_mem _ (List.mem_cons_of_mem _ h1)

theorem bestOfList_mem (cands : List FieldCand) (h : cands ≠ []) :
    bestOfList cands ∈ cands := by
  cases cands with
  | nil => exact absurd rfl h
  | cons c cs => exact foldl_pick_mem cs c

theorem lowOfList_mem (cands : List FieldCand) (h : cands ≠ []) :
    lowOfList cands ∈ cands := by
  cases cands with
  | nil => exact absurd rfl h
  | cons c cs => exact foldl_pick_mem cs c

theorem foldl_best_sim :
    ∀ (cs : List FieldCand) (c : FieldCand),
      (cs.foldl (fun a b => if a.sim < b.sim then b else a) c).sim =
        max c.sim (maxSim cs) := by
  intro cs
  induction cs with
  | nil => intro c; simp [maxSim]
  | cons b cs ih =>
      intro c
      simp only [List.foldl]
      rw [ih]
      have hstep : (if c.sim < b.sim then b else c).sim = max c.sim b.sim := by
        rw [Nat.max_def]
        split_ifs <;> omega
      rw [hstep]
      show max (max c.sim b.sim) (maxSim cs) = max c.sim (maxSim (b :: cs))
      have : maxSim (b :: cs) = max b.sim (maxSim cs) := rfl
      rw [this, Nat.max_assoc]

theorem bestOfList_sim (cands : List FieldCand) :
    (bestOfList cands).sim = maxSim cands := by
  cases cands with
  | nil => rfl
  | cons c cs =>
      show (cs.foldl (fun a b => if a.sim < b.sim then b else a) c).sim = maxSim (c :: cs)
      rw [foldl_best_sim]
      rfl

theorem sim_le_maxSim (cands : List FieldCand) (c : FieldCand) (h : c ∈ cands) :
    c.sim ≤ maxSim cands := by
  induction cands with
  | nil => simp at h
  | cons b cs ih =>
      have hm : maxSim (b :: cs) = max b.sim (maxSim cs) := rfl
      rcases List.mem_cons.mp h with h1 | h1
      · rw [h1, hm]; exact Nat.le_max_left _ _
      · rw [hm]; exact Nat.le_trans (ih h1) (Nat.le_max_right _ _)

theorem head?_mem {α : Type} {l : List α} {a : α} (h : l.head? = some a) : a ∈ l := by
  cases l with
  | nil => simp at h
  | cons b l =>
      simp at h
      subst h
      exact List.mem_cons_self b l

theorem secondOf_cases (cands : List FieldCand) (best low : FieldCand) :
    secondOf cands best low ∈ cands ∨ secondOf cands best low = best := by
  unfold secondOf
  cases hh : (secondCands cands best.label low.label).head? with
  | none => right; rfl
  | some m =>
      left
      have hm : m ∈ secondCands cands best.label low.label := head?_mem hh
      have := List.mem_filter.mp hm
      simpa using this.1

theorem mkRanked_bestSimilarity (jr : JoinedRow) :
    (mkRanked jr).bestSimilarity = maxSim jr.cands :=
  bestOfList_sim jr.cands

theorem mkRanked_second_le_best (jr : JoinedRow) :
    (mkRanked jr).secondSimilarity ≤ (mkRanked jr).bestSimilarity := by
  have hb : (mkRanked jr).bestSimilarity = maxSim jr.cands :=
    mkRanked_bestSimilarity jr
  have hs : (mkRanked jr).secondSimilarity =
      (secondOf jr.cands (bestOfList jr.cands) (lowOfList jr.cands)).sim := rfl
  rcases secondOf_cases jr.cands (bestOfList jr.cands) (lowOfList jr.cands) with h | h
  · rw [hs, hb]
    exact sim_le_maxSim _ _ h
  · rw [hs, h, hb, ← bestOfList_sim]

theorem mkRanked_doubleMatched (jr : JoinedRow) :
    (mkRanked jr).doubleMatched = true ↔
      lowerStr (mkRanked jr).bestMatchUrl = lowerStr (mkRanked jr).secondMatchUrl := by
  show decide (lowerStr (bestOfList jr.cands).url =
      lowerStr (secondOf jr.cands (bestOfList jr.cands) (lowOfList jr.cands)).url) = true ↔ _
  rw [decide_eq_true_eq]
  exact Iff.rfl

theorem status_disjoint (s : Nat) :
    ¬ (nonRedirectableStatus s ∧ eligibleStatus s) := by
  unfold nonRedirectableStatus eligibleStatus
  omega

theorem mem_live2_address (rows : List URLRow) (d : Option String) (b : Bool)
    (r2 : URLRow) (h : r2 ∈ (if b then tagRows rows d else rows)) :
    ∃ e ∈ rows, r2.address = e.address := by
  cases b with
  | false =>
      rw [if_neg (by simp)] at h
      exact ⟨r2, h, rfl⟩
  | true =>
      rw [if_pos rfl] at h
      unfold tagRows at h
      obtain ⟨e, he, rfl⟩ := List.mem_map.mp h
      exact ⟨e, he, rfl⟩

theorem mem_build_ranked (f : List String → List String → List FieldMatch)
    (live staging : List RawRow) (cfg : MapperConfig) (m : RankedMatch)
    (hm : m ∈ (buildMigrationMap f live staging cfg).1) :
    ∃ jr, m = mkRanked jr ∧ ∃ e ∈ eligibleOf live, jr.row.address = e.address := by
  have hm2 : m ∈ insertionSort rankedBefore (dedupBy (fun r => r.sourceUrl)
      ((joinedRows f cfg
        (if cfg.useLanguage then tagRows (eligibleOf live) cfg.liveDefaultLang
         else eligibleOf live)
        (if cfg.useLanguage then
           tagRows (dedupBy (fun r => r.address) (staging.map parseRow))
             cfg.stagingDefaultLang
         else dedupBy (fun r => r.address) (staging.map parseRow))).map mkRanked)) := hm
  rw [mem_insertionSort] at hm2
  have hm3 := mem_of_mem_dedupBy _ _ _ hm2
  obtain ⟨jr, hjr, rfl⟩ := List.mem_map.mp hm3
  refine ⟨jr, rfl, ?_⟩
  unfold joinedRows at hjr
  have hjr2 := mem_of_mem_dedupBy _ _ _ hjr
  obtain ⟨r2, hr2, rfl⟩ := List.mem_map.mp hjr2
  exact mem_live2_address (eligibleOf live) cfg.liveDefaultLang cfg.useLanguage r2 hr2

/-- C6. Status-code routing is a three-way partition of the deduplicated
live rows: 3xx/5xx rows go to the non-redirectable report and never appear
as a Migration Map source; 2xx/4xx rows are eligible and never
non-redirectable; rows with any other status (0 after coercion, 1xx, ...)
appear in neither output. -/
theorem statusRouting (f : List String → List String → List FieldMatch)
    (live staging : List RawRow) (cfg : MapperConfig) (r : URLRow)
    (hr : r ∈ liveDeduped live) :
    (nonRedirectableStatus r.status →
        r ∈ (buildMigrationMap f live staging cfg).2 ∧
        ∀ m ∈ (buildMigrationMap f live staging cfg).1, m.sourceUrl ≠ r.address) ∧
    (eligibleStatus r.status →
        r ∉ (buildMigrationMap f live staging cfg).2) ∧
    (¬ nonRedirectableStatus r.status → ¬ eligibleStatus r.status →
        r ∉ (buildMigrationMap f live staging cfg).2 ∧
        ∀ m ∈ (buildMigrationMap f live staging cfg).1, m.sourceUrl ≠ r.address) := by
  have hsnd : (buildMigrationMap f live staging cfg).2 = nonRedirectableOf live := rfl
  have notin_sources : ¬ eligibleStatus r.status →
      ∀ m ∈ (buildMigrationMap f live staging cfg).1, m.sourceUrl ≠ r.address := by
    intro hne m hm heq
    obtain ⟨jr, rfl, e, he, haddr⟩ := mem_build_ranked f live staging cfg m hm
    have hsrc : (mkRanked jr).sourceUrl = jr.row.address := rfl
    have he2 := List.mem_filter.mp he
    have hee : eligibleStatus e.status := of_decide_eq_true he2.2
    have hkey : e.address = r.address := by
      rw [← haddr, ← hsrc, heq]
    have her : e = r :=
      dedupBy_key_inj (fun r : URLRow => r.address) (live.map parseRow) e r
        (show e ∈ dedupBy (fun r : URLRow => r.address) (live.map parseRow) from he2.1)
        (show r ∈ dedupBy (fun r : URLRow => r.address) (live.map parseRow) from hr)
        hkey
    exact hne (her ▸ hee)
  refine ⟨?_, ?_, ?_⟩
  · intro h
    refine ⟨?_, notin_sources (fun he => status_disjoint r.status ⟨h, he⟩)⟩
    rw [hsnd]
    exact List.mem_filter.mpr ⟨hr, by simpa using h⟩
  · intro h hmem
    rw [hsnd] at hmem
    have := of_decide_eq_true (List.mem_filter.mp hmem).2
    exact status_disjoint r.status ⟨this, h⟩
  · intro hn he
    refine ⟨?_, notin_sources he⟩
    intro hmem
    rw [hsnd] at hmem
    exact hn (of_decide_eq_true (List.mem_filter.mp hmem).2)

/-- Witness for C6: in a concrete run, the 301 row lands in the
non-redirectable report, the 200 row does not, and the status-0 row (an
unparseable status) is in neither output. -/
theorem statusRouting_witness :
    ((⟨"/a", 301, none, none, [], none, ""⟩ : URLRow) ∈
      (buildMigrationMap toyMatcher
        [⟨"/a", some "301", none, none, [], none⟩,
         ⟨"/b", some "200", none, none, [], none⟩,
         ⟨"/c", some "abc", none, none, [], none⟩] exampleStaging exampleConfig).2) ∧
    ((⟨"/b", 200, none, none, [], none, ""⟩ : URLRow) ∉
      (buildMigrationMap toyMatcher
        [⟨"/a", some "301", none, none, [], none⟩,
         ⟨"/b", some "200", none, none, [], none⟩,
         ⟨"/c", some "abc", none, none, [], none⟩] exampleStaging exampleConfig).2) ∧
    ((⟨"/c", 0, none, none, [], none, ""⟩ : URLRow) ∉
      (buildMigrationMap toyMatcher
        [⟨"/a", some "301", none, none, [], none⟩,
         ⟨"/b", some "200", none, none, [], none⟩,
         ⟨"/c", some "abc", none, none, [], none⟩] exampleStaging exampleConfig).2) :=
  ⟨((statusRouting toyMatcher
      [⟨"/a", some "301", none, none, [], none⟩,
       ⟨"/b", some "200", none, none, [], none⟩,
       ⟨"/c", some "abc", none, none, [], none⟩] exampleStaging exampleConfig
      ⟨"/a", 301, none, none, [], none, ""⟩ (by decide)).1 (by decide)).1,
   (statusRouting toyMatcher
      [⟨"/a", some "301", none, none, [], none⟩,
       ⟨"/b", some "200", none, none, [], none⟩,
       ⟨"/c", some "abc", none, none, [], none⟩] exampleStaging exampleConfig
      ⟨"/b", 200, none, none, [], none, ""⟩ (by decide)).2.1 (by decide),
   ((statusRouting toyMatcher
      [⟨"/a", some "301", none, none, [], none⟩,
       ⟨"/b", some "200", none, none, [], none⟩,
       ⟨"/c", some "abc", none, none, [], none⟩] exampleStaging exampleConfig
      ⟨"/c", 0, none, none, [], none, ""⟩ (by decide)).2.2 (by decide) (by decide)).1⟩

/-- C7. Every Migration Map row comes from a joined row whose best
similarity is the maximum of its per-field similarities, the second
similarity never exceeds the best, and the double-matched flag holds exactly
when best and second matched URLs agree case-insensitively. -/
theorem rankedMatch_invariants (f : List String → List String → List FieldMatch)
    (live staging : List RawRow) (cfg : MapperConfig) :
    ∀ r ∈ (buildMigrationMap f live staging cfg).1,
      (∃ jr, r = mkRanked jr ∧ r.bestSimilarity = maxSim jr.cands) ∧
      r.secondSimilarity ≤ r.bestSimilarity ∧
      (r.doubleMatched = true ↔ lowerStr r.bestMatchUrl = lowerStr r.secondMatchUrl) := by
  intro r hr
  obtain ⟨jr, rfl, -⟩ := mem_build_ranked f live staging cfg r hr
  exact ⟨⟨jr, rfl, mkRanked_bestSimilarity jr⟩, mkRanked_second_le_best jr,
    mkRanked_doubleMatched jr⟩

/-- Witness for C7: the invariants instantiated on the concrete row the
end-to-end example produces. -/
theorem rankedMatch_invariants_witness :
    (RankedMatch.mk "/it/shoes" 200 "it" "/it/scarpe-rosse" "Page Title" 1000
        "Scarpe Rosse" "Scarpe Rosse" "/it/scarpe-rosse" "H1 Heading" 312
        "/it/shoes" "/it/scarpe-rosse" true).secondSimilarity ≤
      (RankedMatch.mk "/it/shoes" 200 "it" "/it/scarpe-rosse" "Page Title" 1000
        "Scarpe Rosse" "Scarpe Rosse" "/it/scarpe-rosse" "H1 Heading" 312
        "/it/shoes" "/it/scarpe-rosse" true).bestSimilarity ∧
    ((RankedMatch.mk "/it/shoes" 200 "it" "/it/scarpe-rosse" "Page Title" 1000
        "Scarpe Rosse" "Scarpe Rosse" "/it/scarpe-rosse" "H1 Heading" 312
        "/it/shoes" "/it/scarpe-rosse" true).doubleMatched = true ↔
      lowerStr (RankedMatch.mk "/it/shoes" 200 "it" "/it/scarpe-rosse" "Page Title"
        1000 "Scarpe Rosse" "Scarpe Rosse" "/it/scarpe-rosse" "H1 Heading" 312
        "/it/shoes" "/it/scarpe-rosse" true).bestMatchUrl =
      lowerStr (RankedMatch.mk "/it/shoes" 200 "it" "/it/scarpe-rosse" "Page Title"
        1000 "Scarpe Rosse" "Scarpe Rosse" "/it/scarpe-rosse" "H1 Heading" 312
        "/it/shoes" "/it/scarpe-rosse" true).secondMatchUrl) :=
  (rankedMatch_invariants toyMatcher exampleLive exampleStaging exampleConfig
    (RankedMatch.mk "/it/shoes" 200 "it" "/it/scarpe-rosse" "Page Title" 1000
      "Scarpe Rosse" "Scarpe Rosse" "/it/scarpe-rosse" "H1 Heading" 312
      "/it/shoes" "/it/scarpe-rosse" true) (by decide)).2

/-- C1. The four components of the URL-migration pipeline are realized and
compose end-to-end: the LanguageTagger (`tagLanguage`), the chunked
SimilarityMatcher (`simMatch`), the FieldMatchFuser (`fieldTable`) and the
MigrationMapBuilder (`buildMigrationMap`), which on the documented scenario
produces one ranked best/second match row and an empty non-redirectable
report. -/
theorem migrationPipeline_end_to_end :
    tagLanguage none "/it/shoes" none = "it" ∧
    simMatch toyMatcher ["Scarpe Rosse"] ["Scarpe Rosse"] 5000 300 =
      [⟨"Scarpe Rosse", "Scarpe Rosse", 1000⟩] ∧
    fieldTable toyMatcher exampleConfig
      (tagRows (eligibleOf exampleLive) none)
      (tagRows (dedupBy (fun r => r.address) (exampleStaging.map parseRow)) none)
      .title = [⟨"Scarpe Rosse", "Scarpe Rosse", 1000⟩] ∧
    buildMigrationMap toyMatcher exampleLive exampleStaging exampleConfig =
      ([⟨"/it/shoes", 200, "it", "/it/scarpe-rosse", "Page Title", 1000,
         "Scarpe Rosse", "Scarpe Rosse", "/it/scarpe-rosse", "H1 Heading", 312,
         "/it/shoes", "/it/scarpe-rosse", true⟩], []) := by
  refine ⟨by decide, by decide, by decide, by decide⟩

/-- C2 counterexample: with four candidate fields of pairwise distinct
labels and similarities, removing the best field name and the lowest field
name from the set of field names leaves two names, not one, so no single
remaining name exists to be the second-match field. -/
theorem secondMatch_elimination_counterexample :
    (bestOfList fourFieldCands).label = "URL" ∧
    (lowOfList fourFieldCands).label = "Product Code" ∧
    (secondCands fourFieldCands (bestOfList fourFieldCands).label
        (lowOfList fourFieldCands).label).map FieldCand.label =
      ["Page Title", "H1 Heading"] := by
  decide

/-- C2 (amended). With exactly three candidate fields of pairwise distinct
names whose best and lowest fields differ, exactly one name survives the
elimination rule, and the second match is that field, ranked neither first
nor last. -/
theorem secondMatch_elimination_three_fields (x y z : FieldCand)
    (hxy : x.label ≠ y.label) (hxz : x.label ≠ z.label) (hyz : y.label ≠ z.label)
    (hbl : (bestOfList [x, y, z]).label ≠ (lowOfList [x, y, z]).label) :
    ∃ m, m ∈ ([x, y, z] : List FieldCand) ∧
      m.label ≠ (bestOfList [x, y, z]).label ∧
      m.label ≠ (lowOfList [x, y, z]).label ∧
      secondCands [x, y, z] (bestOfList [x, y, z]).label
        (lowOfList [x, y, z]).label = [m] ∧
      secondOf [x, y, z] (bestOfList [x, y, z]) (lowOfList [x, y, z]) = m := by
  have hb := bestOfList_mem [x, y, z] (by simp)
  have hl := lowOfList_mem [x, y, z] (by simp)
  simp only [List.mem_cons, List.not_mem_nil, or_false] at hb hl
  rcases hb with hb | hb | hb <;> rcases hl with hl | hl | hl <;>
    rw [hb, hl] at hbl ⊢
  · exact absurd rfl hbl
  · have hfilter : secondCands [x, y, z] x.label y.label = [z] := by
      simp [secondCands, List.filter, beq_eq_false_iff_ne.mpr hxy, beq_eq_false_iff_ne.mpr hxz, beq_eq_false_iff_ne.mpr hyz, beq_eq_false_iff_ne.mpr (Ne.symm hxy), beq_eq_false_iff_ne.mpr (Ne.symm hxz), beq_eq_false_iff_ne.mpr (Ne.symm hyz)]
    exact ⟨z, by simp, Ne.symm hxz, Ne.symm hyz, hfilter, by
      unfold secondOf; rw [hfilter]; rfl⟩
  · have hfilter : secondCands [x, y, z] x.label z.label = [y] := by
      simp [secondCands, List.filter, beq_eq_false_iff_ne.mpr hxy, beq_eq_false_iff_ne.mpr hxz, beq_eq_false_iff_ne.mpr hyz, beq_eq_false_iff_ne.mpr (Ne.symm hxy), beq_eq_false_iff_ne.mpr (Ne.symm hxz), beq_eq_false_iff_ne.mpr (Ne.symm hyz)]
    exact ⟨y, by simp, Ne.symm hxy, hyz, hfilter, by
      unfold secondOf; rw [hfilter]; rfl⟩
  · have hfilter : secondCands [x, y, z] y.label x.label = [z] := by
      simp [secondCands, List.filter, beq_eq_false_iff_ne.mpr hxy, beq_eq_false_iff_ne.mpr hxz, beq_eq_false_iff_ne.mpr hyz, beq_eq_false_iff_ne.mpr (Ne.symm hxy), beq_eq_false_iff_ne.mpr (Ne.symm hxz), beq_eq_false_iff_ne.mpr (Ne.symm hyz)]
    exact ⟨z, by simp, Ne.symm hyz, Ne.symm hxz, hfilter, by
      unfold secondOf; rw [hfilter]; rfl⟩
  · exact absurd rfl hbl
  · have hfilter : secondCands [x, y, z] y.label z.label = [x] := by
      simp [secondCands, List.filter, beq_eq_false_iff_ne.mpr hxy, beq_eq_false_iff_ne.mpr hxz, beq_eq_false_iff_ne.mpr hyz, beq_eq_false_iff_ne.mpr (Ne.symm hxy), beq_eq_false_iff_ne.mpr (Ne.symm hxz), beq_eq_false_iff_ne.mpr (Ne.symm hyz)]
    exact ⟨x, by simp, hxy, hxz, hfilter, by
      unfold secondOf; rw [hfilter]; rfl⟩
  · have hfilter : secondCands [x, y, z] z.label x.label = [y] := by
      simp [secondCands, List.filter, beq_eq_false_iff_ne.mpr hxy, beq_eq_false_iff_ne.mpr hxz, beq_eq_false_iff_ne.mpr hyz, beq_eq_false_iff_ne.mpr (Ne.symm hxy), beq_eq_false_iff_ne.mpr (Ne.symm hxz), beq_eq_false_iff_ne.mpr (Ne.symm hyz)]
    exact ⟨y, by simp, hyz, Ne.symm hxy, hfilter, by
      unfold secondOf; rw [hfilter]; rfl⟩
  · have hfilter : secondCands [x, y, z] z.label y.label = [x] := by
      simp [secondCands, List.filter, beq_eq_false_iff_ne.mpr hxy, beq_eq_false_iff_ne.mpr hxz, beq_eq_false_iff_ne.mpr hyz, beq_eq_false_iff_ne.mpr (Ne.symm hxy), beq_eq_false_iff_ne.mpr (Ne.symm hxz), beq_eq_false_iff_ne.mpr (Ne.symm hyz)]
    exact ⟨x, by simp, hxz, hxy, hfilter, by
      unfold secondOf; rw [hfilter]; rfl⟩
  · exact absurd rfl hbl

/-- Witness for the amended C2: on three concrete fields the best is the
title, the lowest is the URL, and the H1 field is the single survivor of the
elimination rule. -/
theorem secondMatch_elimination_three_fields_witness :
    ∃ m, m ∈ ([⟨"URL", "/u", 300, "s", "d"⟩, ⟨"Page Title", "/v", 900, "s", "d"⟩,
        ⟨"H1 Heading", "/w", 500, "s", "d"⟩] : List FieldCand) ∧
      m.label ≠ (bestOfList [⟨"URL", "/u", 300, "s", "d"⟩,
        ⟨"Page Title", "/v", 900, "s", "d"⟩,
        ⟨"H1 Heading", "/w", 500, "s", "d"⟩]).label ∧
      m.label ≠ (lowOfList [⟨"URL", "/u", 300, "s", "d"⟩,
        ⟨"Page Title", "/v", 900, "s", "d"⟩,
        ⟨"H1 Heading", "/w", 500, "s", "d"⟩]).label ∧
      secondCands [⟨"URL", "/u", 300, "s", "d"⟩, ⟨"Page Title", "/v", 900, "s", "d"⟩,
          ⟨"H1 Heading", "/w", 500, "s", "d"⟩]
        (bestOfList [⟨"URL", "/u", 300, "s", "d"⟩, ⟨"Page Title", "/v", 900, "s", "d"⟩,
          ⟨"H1 Heading", "/w", 500, "s", "d"⟩]).label
        (lowOfList [⟨"URL", "/u", 300, "s", "d"⟩, ⟨"Page Title", "/v", 900, "s", "d"⟩,
          ⟨"H1 Heading", "/w", 500, "s", "d"⟩]).label = [m] ∧
      secondOf [⟨"URL", "/u", 300, "s", "d"⟩, ⟨"Page Title", "/v", 900, "s", "d"⟩,
          ⟨"H1 Heading", "/w", 500, "s", "d"⟩]
        (bestOfList [⟨"URL", "/u", 300, "s", "d"⟩, ⟨"Page Title", "/v", 900, "s", "d"⟩,
          ⟨"H1 Heading", "/w", 500, "s", "d"⟩])
        (lowOfList [⟨"URL", "/u", 300, "s", "d"⟩, ⟨"Page Title", "/v", 900, "s", "d"⟩,
          ⟨"H1 Heading", "/w", 500, "s", "d"⟩]) = m :=
  secondMatch_elimination_three_fields
    ⟨"URL", "/u", 300, "s", "d"⟩ ⟨"Page Title", "/v", 900, "s", "d"⟩
    ⟨"H1 Heading", "/w", 500, "s", "d"⟩
    (by decide) (by decide) (by decide) (by decide)

theorem procStep_checkpoint
    (gen : List (String × String) → Option (List (String × String)))
    (csvData : List (List (String × String))) (batchSize : Nat)
    (codeColumn : Option String) (fields : List String)
    (sessionId : String) (now : Nat) (st : ProcState)
    (h : st.currentIndex < csvData.length) :
    (procStep gen csvData batchSize codeColumn fields sessionId now st).checkpoint =
      some (save_checkpoint
        (procStep gen csvData batchSize codeColumn fields sessionId now st).results
        sessionId now) := by
  unfold procStep
  rw [if_pos h]

theorem procStep_done
    (gen : List (String × String) → Option (List (String × String)))
    (csvData : List (List (String × String))) (batchSize : Nat)
    (codeColumn : Option String) (fields : List String)
    (sessionId : String) (now : Nat) (st : ProcState)
    (h : ¬ st.currentIndex < csvData.length) :
    procStep gen csvData batchSize codeColumn fields sessionId now st = st := by
  unfold procStep
  rw [if_neg h]

/-- C8. The product-copy generator checkpoints partial progress: after each
processed batch the accumulated results are saved as a checkpoint holding
the session id, the timestamp and the results, with `current_index` equal to
the number of results; the checkpoint persists across further batches. -/
theorem checkpoint_after_each_batch
    (gen : List (String × String) → Option (List (String × String)))
    (csvData : List (List (String × String))) (batchSize : Nat)
    (codeColumn : Option String) (fields : List String)
    (sessionId : String) (now : Nat) (n : Nat) (h : 0 < csvData.length) :
    (runBatches gen csvData batchSize codeColumn fields sessionId now (n + 1)).checkpoint =
      some (save_checkpoint
        (runBatches gen csvData batchSize codeColumn fields sessionId now (n + 1)).results
        sessionId now) := by
  induction n with
  | zero =>
      exact procStep_checkpoint gen csvData batchSize codeColumn fields sessionId now
        ⟨[], 0, none⟩ (by simpa using h)
  | succ n ih =>
      by_cases hc : (runBatches gen csvData batchSize codeColumn fields sessionId now
          (n + 1)).currentIndex < csvData.length
      · exact procStep_checkpoint gen csvData batchSize codeColumn fields sessionId now
          (runBatches gen csvData batchSize codeColumn fields sessionId now (n + 1)) hc
      · have heq := procStep_done gen csvData batchSize codeColumn fields sessionId now
          (runBatches gen csvData batchSize codeColumn fields sessionId now (n + 1)) hc
        show (procStep gen csvData batchSize codeColumn fields sessionId now
            (runBatches gen csvData batchSize codeColumn fields sessionId now (n + 1))).checkpoint =
          some (save_checkpoint
            (procStep gen csvData batchSize codeColumn fields sessionId now
              (runBatches gen csvData batchSize codeColumn fields sessionId now (n + 1))).results
            sessionId now)
        rw [heq]
        exact ih

/-- Witness for C8: a concrete two-batch run whose checkpoint carries the
accumulated results with index equal to their count. -/
theorem checkpoint_after_each_batch_witness :
    (runBatches (fun _ => some []) [[("a", "1")], [("a", "2")], [("a", "3")]] 2
        none [] "sid" 7 2).checkpoint =
      some (save_checkpoint
        (runBatches (fun _ => some []) [[("a", "1")], [("a", "2")], [("a", "3")]] 2
          none [] "sid" 7 2).results "sid" 7) :=
  checkpoint_after_each_batch (fun _ => some [])
    [[("a", "1")], [("a", "2")], [("a", "3")]] 2 none [] "sid" 7 1 (by decide)

theorem addImage_ok (validImage : List Nat → Bool) (code : String) (img : List Nat)
    (himg : validImage img = true) :
    ∀ (dict : List (String × List (List Nat))),
      (∀ pr ∈ dict, pr.2 ≠ [] ∧ ∀ b ∈ pr.2, validImage b = true) →
      ∀ pr ∈ addImage dict code img, pr.2 ≠ [] ∧ ∀ b ∈ pr.2, validImage b = true := by
  intro dict
  induction dict with
  | nil =>
      intro _ pr hpr
      unfold addImage at hpr
      simp at hpr
      rw [hpr]
      exact ⟨by simp, by simpa using himg⟩
  | cons hd rest ih =>
      intro hok pr hpr
      unfold addImage at hpr
      by_cases hc : hd.1 = code
      · rw [if_pos hc] at hpr
        rcases List.mem_cons.mp hpr with h1 | h1
        · rw [h1]
          have hh := hok hd (List.mem_cons_self hd rest)
          refine ⟨by simp, ?_⟩
          intro b hb
          rcases List.mem_append.mp hb with hb1 | hb1
          · exact hh.2 b hb1
          · simp at hb1
            rw [hb1]
            exact himg
        · exact hok pr (List.mem_cons_of_mem hd h1)
      · rw [if_neg hc] at hpr
        rcases List.mem_cons.mp hpr with h1 | h1
        · rw [h1]
          exact hok hd (List.mem_cons_self hd rest)
        · exact ih (fun q hq => hok q (List.mem_cons_of_mem hd hq)) pr h1

theorem loadLoop_ok (validImage : List Nat → Bool) :
    ∀ (files : List ZipEntry) (dict dictOut : List (String × List (List Nat))),
      (∀ pr ∈ dict, pr.2 ≠ [] ∧ ∀ b ∈ pr.2, validImage b = true) →
      loadLoop validImage files dict = Except.ok dictOut →
      ∀ pr ∈ dictOut, pr.2 ≠ [] ∧ ∀ b ∈ pr.2, validImage b = true := by
  intro files
  induction files with
  | nil =>
      intro dict dictOut hok hrun
      unfold loadLoop at hrun
      simp at hrun
      rw [← hrun]
      exact hok
  | cons e rest ih =>
      intro dict dictOut hok hrun
      unfold loadLoop at hrun
      by_cases hskip : skipFile e.name.data
      · rw [if_pos hskip] at hrun
        exact ih dict dictOut hok hrun
      · rw [if_neg hskip] at hrun
        by_cases hext : lowerChars (splitExt (baseName e.name.data)).2 ∈ supportedFormats
        · rw [if_pos hext] at hrun
          cases hdata : e.data with
          | error msg => rw [hdata] at hrun; simp at hrun
          | ok bytes =>
              rw [hdata] at hrun
              dsimp only at hrun
              by_cases hvalid : validImage bytes
              · rw [if_pos hvalid] at hrun
                exact ih _ dictOut
                  (addImage_ok validImage _ bytes hvalid dict hok) hrun
              · rw [if_neg hvalid] at hrun
                exact ih dict dictOut hok hrun
        · rw [if_neg hext] at hrun
          exact ih dict dictOut hok hrun

/-- C9. `load_images_from_zip` either returns a mapping in which every
product code is bound to a non-empty list of validated images, or returns
the empty mapping whenever reading the ZIP raises (on opening or while
reading an entry); a failing call never yields a partial mapping and never
propagates the exception. -/
theorem load_images_invariants (validImage : List Nat → Bool)
    (zipOpen : Except String (List ZipEntry)) :
    (∀ e, zipOpen = Except.error e →
        load_images_from_zip validImage zipOpen = []) ∧
    (∀ files msg, zipOpen = Except.ok files →
        loadLoop validImage files [] = Except.error msg →
        load_images_from_zip validImage zipOpen = []) ∧
    (∀ pr ∈ load_images_from_zip validImage zipOpen,
        pr.2 ≠ [] ∧ ∀ b ∈ pr.2, validImage b = true) := by
  refine ⟨?_, ?_, ?_⟩
  · intro e he
    rw [he]
    rfl
  · intro files msg hfiles hloop
    rw [hfiles]
    show (match loadLoop validImage files [] with
          | Except.error _ => ([] : List (String × List (List Nat)))
          | Except.ok dict => dict) = []
    rw [hloop]
  · intro pr hpr
    cases hz : zipOpen with
    | error e =>
        rw [hz] at hpr
        simp [load_images_from_zip] at hpr
    | ok files =>
        rw [hz] at hpr
        have hpr2 : pr ∈ (match loadLoop validImage files [] with
            | Except.error _ => ([] : List (String × List (List Nat)))
            | Except.ok dict => dict) := hpr
        cases hrun : loadLoop validImage files [] with
        | error msg => rw [hrun] at hpr2; simp at hpr2
        | ok dict =>
            rw [hrun] at hpr2
            exact loadLoop_ok validImage files [] dict (by simp) hrun pr hpr2

/-- Witness for C9: a concrete ZIP with one valid and one invalid image
yields a mapping whose single entry is non-empty and validated, and a ZIP
whose open raises yields the empty mapping. -/
theorem load_images_invariants_witness :
    (("A1", [[1, 2]]) : String × List (List Nat)).2 ≠ [] ∧
      (∀ b ∈ (("A1", [[1, 2]]) : String × List (List Nat)).2,
        (fun bs => decide (bs ≠ [9])) b = true) :=
  (load_images_invariants (fun bs => decide (bs ≠ [9]))
    (Except.ok [⟨"img/A1.jpg", Except.ok [1, 2]⟩, ⟨"img/bad.png", Except.ok [9]⟩])).2.2
    ("A1", [[1, 2]]) (by decide)

theorem selectedPairs_keys (fields : List String)
    (content : List (String × String)) :
    (selectedPairs fields content).map Prod.fst = selectedKeys fields := by
  unfold selectedPairs selectedKeys
  simp only [List.map_append, apply_ite (List.map (@Prod.fst String String))]
  simp

theorem processBatchAux_length
    (gen : List (String × String) → Option (List (String × String)))
    (codeColumn : Option String) (fields : List String) :
    ∀ (batch : List (List (String × String))) (index : Nat),
      (processBatchAux gen codeColumn fields index batch).length = batch.length := by
  intro batch
  induction batch with
  | nil => intro index; rfl
  | cons row rest ih =>
      intro index
      unfold processBatchAux
      cases gen row <;> simp [ih]

theorem processBatchAux_spec
    (gen : List (String × String) → Option (List (String × String)))
    (codeColumn : Option String) (fields : List String) :
    ∀ (batch : List (List (String × String))) (index i : Nat), i < batch.length →
      (((processBatchAux gen codeColumn fields index batch).getD i []).head? =
        some ("codice_prodotto", codeOf codeColumn (batch.getD i []) (index + i))) ∧
      (∀ c, gen (batch.getD i []) = some c →
        ((processBatchAux gen codeColumn fields index batch).getD i []).map Prod.fst =
          "codice_prodotto" :: selectedKeys fields) ∧
      (gen (batch.getD i []) = none →
        (processBatchAux gen codeColumn fields index batch).getD i [] =
          [("codice_prodotto", codeOf codeColumn (batch.getD i []) (index + i)),
           ("errore", "ERRORE - NON GENERATO")]) := by
  intro batch
  induction batch with
  | nil => intro index i h; simp at h
  | cons row rest ih =>
      intro index i h
      cases i with
      | zero =>
          refine ⟨?_, ?_, ?_⟩
          · cases hg : gen row <;>
              simp [processBatchAux, hg, List.getD_cons_zero]
          · intro c hc
            simp only [List.getD_cons_zero] at hc ⊢
            simp [processBatchAux, hc, selectedPairs_keys]
          · intro hn
            simp only [List.getD_cons_zero] at hn ⊢
            simp [processBatchAux, hn]
      | succ j =>
          have hj : j < rest.length := by simpa using h
          have hrec := ih (index + 1) j hj
          have harith : index + 1 + j = index + (j + 1) := by omega
          rw [harith] at hrec
          have hstep : processBatchAux gen codeColumn fields index (row :: rest) =
              (match gen row with
               | some content =>
                   ("codice_prodotto", codeOf codeColumn row index) ::
                     selectedPairs fields content
               | none =>
                   [("codice_prodotto", codeOf codeColumn row index),
                    ("errore", "ERRORE - NON GENERATO")]) ::
                processBatchAux gen codeColumn fields (index + 1) rest := rfl
          rw [hstep]
          simpa [List.getD_cons_succ] using hrec

/-- C10. `process_batch` produces exactly one result row per input row, in
input order: each row starts with the normalized product code under
`codice_prodotto` (or the synthetic `PROD_<index+1>` when no code column is
mapped), a successful row carries exactly the keys of the selected fields,
and a failed row is emitted with the `errore` marker instead of being
dropped. -/
theorem process_batch_row_shape
    (gen : List (String × String) → Option (List (String × String)))
    (batch : List (List (String × String))) (codeColumn : Option String)
    (startIndex : Nat) (fields : List String) :
    (process_batch gen batch codeColumn startIndex fields).length = batch.length ∧
    ∀ i, i < batch.length →
      (((process_batch gen batch codeColumn startIndex fields).getD i []).head? =
        some ("codice_prodotto", codeOf codeColumn (batch.getD i []) (startIndex + i))) ∧
      (∀ c, gen (batch.getD i []) = some c →
        ((process_batch gen batch codeColumn startIndex fields).getD i []).map Prod.fst =
          "codice_prodotto" :: selectedKeys fields) ∧
      (gen (batch.getD i []) = none →
        (process_batch gen batch codeColumn startIndex fields).getD i [] =
          [("codice_prodotto", codeOf codeColumn (batch.getD i []) (startIndex + i)),
           ("errore", "ERRORE - NON GENERATO")]) :=
  ⟨processBatchAux_length gen codeColumn fields batch startIndex,
   fun i h => processBatchAux_spec gen codeColumn fields batch startIndex i h⟩

/-- Witness for C10: a two-row batch with one success and one failure: the
result has one row per input, the first row carries the stripped code X1 and
exactly the selected keys, the second is the errore row for code X2. -/
theorem process_batch_row_shape_witness :
    ((process_batch
        (fun r => if r.lookup "n" = some "bad" then none
          else some [("titolo", "T"), ("meta_title", "M")])
        [[("cod", " X1 "), ("n", "ok")], [("cod", "X2"), ("n", "bad")]]
        (some "cod") 5 ["Titolo Prodotto", "Meta Title"]).length = 2) ∧
    (((process_batch
        (fun r => if r.lookup "n" = some "bad" then none
          else some [("titolo", "T"), ("meta_title", "M")])
        [[("cod", " X1 "), ("n", "ok")], [("cod", "X2"), ("n", "bad")]]
        (some "cod") 5 ["Titolo Prodotto", "Meta Title"]).getD 0 []).map Prod.fst =
      "codice_prodotto" :: selectedKeys ["Titolo Prodotto", "Meta Title"]) ∧
    ((process_batch
        (fun r => if r.lookup "n" = some "bad" then none
          else some [("titolo", "T"), ("meta_title", "M")])
        [[("cod", " X1 "), ("n", "ok")], [("cod", "X2"), ("n", "bad")]]
        (some "cod") 5 ["Titolo Prodotto", "Meta Title"]).getD 1 [] =
      [("codice_prodotto",
        codeOf (some "cod") [("cod", "X2"), ("n", "bad")] 6),
       ("errore", "ERRORE - NON GENERATO")]) :=
  ⟨(process_batch_row_shape
      (fun r => if r.lookup "n" = some "bad" then none
        else some [("titolo", "T"), ("meta_title", "M")])
      [[("cod", " X1 "), ("n", "ok")], [("cod", "X2"), ("n", "bad")]]
      (some "cod") 5 ["Titolo Prodotto", "Meta Title"]).1,
   ((process_batch_row_shape
      (fun r => if r.lookup "n" = some "bad" then none
        else some [("titolo", "T"), ("meta_title", "M")])
      [[("cod", " X1 "), ("n", "ok")], [("cod", "X2"), ("n", "bad")]]
      (some "cod") 5 ["Titolo Prodotto", "Meta Title"]).2 0 (by decide)).2.1
      [("titolo", "T"), ("meta_title", "M")] (by decide),
   ((process_batch_row_shape
      (fun r => if r.lookup "n" = some "bad" then none
        else some [("titolo", "T"), ("meta_title", "M")])
      [[("cod", " X1 "), ("n", "ok")], [("cod", "X2"), ("n", "bad")]]
      (some "cod") 5 ["Titolo Prodotto", "Meta Title"]).2 1 (by decide)).2.2
      (by decide)⟩
